import Mathlib

/-!
Verification of the AgentX-Monard agent framework.

The development shallowly embeds the on-chain contracts (`contracts/Agent.sol`,
`contracts/AgentFactory.sol`), the off-chain executor loop (`executor/index.js`)
and the monitor's bounded history (`monitor/index.js`), and proves the spec's
claims about them.  Addresses and uint256 values are modelled as `Nat`
(no arithmetic here approaches 2^256, so wrap-around is irrelevant);
JavaScript integer arithmetic on epoch seconds is modelled as `Int`;
Solidity `keccak256(bytes(a)) == keccak256(bytes(b))` string comparison is
modelled as string equality (collision-freeness assumption).
-/

namespace AgentX

/-- One entry of the agent's memory array (`struct Memory` in `Agent.sol`). -/
structure MemEntry where
  key : String
  value : String
  timestamp : Nat
deriving Repr, DecidableEq, Inhabited

/-- Storage of one `Agent` contract (`Agent.sol`).  `memoryIndex` is the
contract's `mapping(string => uint256)`, total with default value 0. -/
structure AgentState where
  owner : Nat
  factory : Nat
  goal : String
  lastResponse : String
  lastExecutionTime : Nat
  executionCount : Nat
  isActive : Bool
  memories : List MemEntry
  memoryIndex : String → Nat

/-- Revert reasons of the `Agent` contract modifiers. -/
inductive AgentError
  | unauthorized
deriving Repr, DecidableEq

/-- The `Agent.sol` constructor: goal and owner fixed, active, zero executions,
`lastExecutionTime = block.timestamp`, empty memory, empty index mapping. -/
def mkAgent (ownerA factoryA : Nat) (goalA : String) (blockTimestamp : Nat) : AgentState :=
  { owner := ownerA
    factory := factoryA
    goal := goalA
    lastResponse := ""
    lastExecutionTime := blockTimestamp
    executionCount := 0
    isActive := true
    memories := []
    memoryIndex := fun _ => 0 }

/-- Function `Agent.updateGoal`: `onlyOwner`, then sets `goal`. -/
def updateGoal (s : AgentState) (caller : Nat) (newGoal : String) :
    Except AgentError AgentState :=
  if caller = s.owner then
    Except.ok { s with goal := newGoal }
  else
    Except.error AgentError.unauthorized

/-- The state effect of a successful `Agent.storeResponse` call. -/
def storeResponseOk (s : AgentState) (response : String) (blockTimestamp : Nat) : AgentState :=
  { s with
    lastResponse := response
    lastExecutionTime := blockTimestamp
    executionCount := s.executionCount + 1 }

/-- Function `Agent.storeResponse`: `onlyOwnerOrFactory`, then sets `lastResponse`,
`lastExecutionTime = block.timestamp` and increments `executionCount`. -/
def storeResponse (s : AgentState) (caller : Nat) (response : String)
    (blockTimestamp : Nat) : Except AgentError AgentState :=
  if caller = s.owner ∨ caller = s.factory then
    Except.ok (storeResponseOk s response blockTimestamp)
  else
    Except.error AgentError.unauthorized

/-- The scan loop inside `Agent.storeMemory`: walk the array, and at the first
entry whose key matches update its `value` and `timestamp` in place and stop
(`exists = true; break`).  Returns `none` when no entry matches
(`exists` stays `false`). -/
def scanUpdate (mems : List MemEntry) (k v : String) (t : Nat) : Option (List MemEntry) :=
  match mems with
  | [] => none
  | e :: rest =>
    if e.key = k then
      some ({ e with value := v, timestamp := t } :: rest)
    else
      (scanUpdate rest k v t).map (e :: ·)

/-- The state effect of a successful `Agent.storeMemory` call, following the
source's branch structure: `index = memoryIndex[key]`; if `index == 0` and the
array is non-empty, scan for the key, updating in place on a hit and pushing
(and recording `memoryIndex[key] = memories.length` after the push) on a miss;
if `index > 0` update slot `index - 1` in place; otherwise push and record the
index. -/
def storeMemoryOk (s : AgentState) (k v : String) (t : Nat) : AgentState :=
  let index := s.memoryIndex k
  if index = 0 ∧ 0 < s.memories.length then
    match scanUpdate s.memories k v t with
    | some updated => { s with memories := updated }
    | none =>
      { s with
        memories := s.memories ++ [⟨k, v, t⟩]
        memoryIndex := fun k2 => if k2 = k then s.memories.length + 1 else s.memoryIndex k2 }
  else if 0 < index then
    let e := s.memories.getD (index - 1) default
    { s with memories := s.memories.set (index - 1) { e with value := v, timestamp := t } }
  else
    { s with
      memories := s.memories ++ [⟨k, v, t⟩]
      memoryIndex := fun k2 => if k2 = k then s.memories.length + 1 else s.memoryIndex k2 }

/-- Function `Agent.storeMemory`: `onlyOwnerOrFactory`, then the upsert body. -/
def storeMemory (s : AgentState) (caller : Nat) (k v : String) (t : Nat) :
    Except AgentError AgentState :=
  if caller = s.owner ∨ caller = s.factory then
    Except.ok (storeMemoryOk s k v t)
  else
    Except.error AgentError.unauthorized

/-- Dedup-by-key upsert as the spec words it: storing an existing key updates
that entry's value and timestamp in place, preserving its original insertion
position; storing a new key appends a new entry at the end. -/
def specStore (mems : List MemEntry) (k v : String) (t : Nat) : List MemEntry :=
  match mems with
  | [] => [⟨k, v, t⟩]
  | e :: rest =>
    if e.key = k then
      { e with value := v, timestamp := t } :: rest
    else
      e :: specStore rest k v t

/-- The helper loop of `Agent.getMemory`: first entry whose key matches wins. -/
def findMemory (mems : List MemEntry) (k : String) : String × Nat :=
  match mems with
  | [] => ("", 0)
  | e :: rest => if e.key = k then (e.value, e.timestamp) else findMemory rest k

/-- Function `Agent.getMemory`: scan `memories` for the first key match and return its
value and timestamp, returning `("", 0)` when no entry matches. -/
def getMemory (s : AgentState) (k : String) : String × Nat :=
  findMemory s.memories k

/-- A sequence of successful `storeMemory` calls `(key, value, timestamp)`
applied in order. -/
def applyStores (s : AgentState) (ops : List (String × String × Nat)) : AgentState :=
  ops.foldl (fun acc op => storeMemoryOk acc op.1 op.2.1 op.2.2) s

example :
    (applyStores (mkAgent 1 2 "g" 0) [("k", "v1", 1), ("k", "v2", 2)]).memories =
      [⟨"k", "v2", 2⟩] := by decide

example :
    (applyStores (mkAgent 1 2 "g" 0) [("a", "1", 1), ("b", "2", 2), ("a", "3", 3)]).memories =
      [⟨"a", "3", 3⟩, ⟨"b", "2", 2⟩] := by decide

example : getMemory (mkAgent 1 2 "g" 0) "missing" = ("", 0) := by decide

/-- The coupling invariant between `memories` and the `memoryIndex` mapping:
the mapping is exactly the (1-based) position of each stored key. -/
def MemInv (s : AgentState) : Prop :=
  (∀ i e, s.memories[i]? = some e → s.memoryIndex e.key = i + 1) ∧
  (∀ k i, s.memoryIndex k = i + 1 → ∃ e, s.memories[i]? = some e ∧ e.key = k)

theorem memInv_mkAgent (o f : Nat) (g : String) (t : Nat) : MemInv (mkAgent o f g t) := by
  constructor
  · intro i e h
    simp [mkAgent] at h
  · intro k i h
    simp [mkAgent] at h

theorem scanUpdate_eq_none (mems : List MemEntry) (k v : String) (t : Nat)
    (h : ∀ e ∈ mems, e.key ≠ k) : scanUpdate mems k v t = none := by
  induction mems with
  | nil => rfl
  | cons e rest ih =>
    have hk : e.key ≠ k := h e (List.mem_cons_self e rest)
    simp only [scanUpdate, if_neg hk]
    rw [ih (fun e' he' => h e' (List.mem_cons_of_mem e he'))]
    rfl

theorem specStore_of_not_mem (mems : List MemEntry) (k v : String) (t : Nat)
    (h : ∀ e ∈ mems, e.key ≠ k) : specStore mems k v t = mems ++ [⟨k, v, t⟩] := by
  induction mems with
  | nil => rfl
  | cons e rest ih =>
    have hk : e.key ≠ k := h e (List.mem_cons_self e rest)
    simp only [specStore, if_neg hk, List.cons_append, List.cons.injEq, true_and]
    exact ih (fun e' he' => h e' (List.mem_cons_of_mem e he'))

theorem specStore_set (mems : List MemEntry) (k v : String) (t : Nat) (i : Nat) (e : MemEntry)
    (hi : mems[i]? = some e) (hk : e.key = k)
    (hfirst : ∀ j e', j < i → mems[j]? = some e' → e'.key ≠ k) :
    specStore mems k v t = mems.set i { e with value := v, timestamp := t } := by
  induction mems generalizing i with
  | nil => simp at hi
  | cons a rest ih =>
    cases i with
    | zero =>
      simp only [List.getElem?_cons_zero, Option.some.injEq] at hi
      subst hi
      simp only [specStore, if_pos hk, List.set_cons_zero]
    | succ n =>
      have ha : a.key ≠ k := hfirst 0 a (Nat.succ_pos n) (by simp)
      simp only [List.getElem?_cons_succ] at hi
      simp only [specStore, if_neg ha, List.set_cons_succ, List.cons.injEq, true_and]
      exact ih n hi (fun j e' hj hje' =>
        hfirst (j + 1) e' (Nat.succ_lt_succ hj) (by simpa using hje'))

theorem not_mem_of_memoryIndex_zero (s : AgentState) (k : String) (h : MemInv s)
    (hidx : s.memoryIndex k = 0) : ∀ e ∈ s.memories, e.key ≠ k := by
  intro e he hk
  obtain ⟨i, hi⟩ := List.getElem?_of_mem he
  have := h.1 i e hi
  rw [hk, hidx] at this
  exact Nat.succ_ne_zero i this.symm

theorem storeMemoryOk_fresh (s : AgentState) (k v : String) (t : Nat) (h : MemInv s)
    (hidx : s.memoryIndex k = 0) :
    storeMemoryOk s k v t =
      { s with
        memories := s.memories ++ [⟨k, v, t⟩]
        memoryIndex := fun k2 => if k2 = k then s.memories.length + 1 else s.memoryIndex k2 } := by
  have hnm := not_mem_of_memoryIndex_zero s k h hidx
  unfold storeMemoryOk
  by_cases hlen : 0 < s.memories.length
  · rw [if_pos ⟨hidx, hlen⟩, scanUpdate_eq_none s.memories k v t hnm]
  · rw [if_neg (fun hc => hlen hc.2), if_neg (by omega)]

theorem storeMemoryOk_update (s : AgentState) (k v : String) (t : Nat) (j : Nat) (h : MemInv s)
    (hidx : s.memoryIndex k = j + 1) :
    ∃ e, s.memories[j]? = some e ∧ e.key = k ∧
      storeMemoryOk s k v t =
        { s with memories := s.memories.set j { e with value := v, timestamp := t } } := by
  obtain ⟨e, hj, hk⟩ := h.2 k j hidx
  refine ⟨e, hj, hk, ?_⟩
  simp only [storeMemoryOk, hidx]
  rw [if_neg (fun hc => Nat.succ_ne_zero j hc.1), if_pos (Nat.succ_pos j)]
  simp [hj]

theorem memInv_storeMemoryOk (s : AgentState) (k v : String) (t : Nat) (h : MemInv s) :
    MemInv (storeMemoryOk s k v t) := by
  rcases hidx : s.memoryIndex k with _ | j
  · rw [storeMemoryOk_fresh s k v t h hidx]
    constructor
    · intro i e hi
      rcases Nat.lt_trichotomy i s.memories.length with hlt | heq | hgt
      · rw [List.getElem?_append_left hlt] at hi
        have h1 := h.1 i e hi
        have hek : e.key ≠ k := by
          intro hc
          rw [hc, hidx] at h1
          exact Nat.succ_ne_zero i h1.symm
        simpa [if_neg hek] using h1
      · subst heq
        rw [List.getElem?_concat_length] at hi
        cases hi
        simp
      · rw [List.getElem?_eq_none (by simp; omega)] at hi
        cases hi
    · intro k2 i hk2
      by_cases hkk : k2 = k
      · subst hkk
        have hk2' : s.memories.length + 1 = i + 1 := by simpa using hk2
        have hi : i = s.memories.length := by omega
        subst hi
        exact ⟨⟨k2, v, t⟩, List.getElem?_concat_length _ _, rfl⟩
      · have hk2' : s.memoryIndex k2 = i + 1 := by simpa [hkk] using hk2
        obtain ⟨e, he, hek⟩ := h.2 k2 i hk2'
        have hlt : i < s.memories.length := (List.getElem?_eq_some.mp he).1
        exact ⟨e, by rwa [List.getElem?_append_left hlt], hek⟩
  · obtain ⟨e, hj, hk, heq⟩ := storeMemoryOk_update s k v t j h hidx
    rw [heq]
    have hjlt : j < s.memories.length := (List.getElem?_eq_some.mp hj).1
    constructor
    · intro i e' hi
      by_cases hij : i = j
      · subst hij
        rw [List.getElem?_set_self (by simpa using hjlt)] at hi
        cases hi
        simpa using h.1 i e hj
      · rw [List.getElem?_set_ne (fun hc => hij hc.symm)] at hi
        exact h.1 i e' hi
    · intro k2 i hk2
      obtain ⟨e2, he2, he2k⟩ := h.2 k2 i hk2
      by_cases hij : i = j
      · subst hij
        rw [hj] at he2
        cases he2
        refine ⟨{ e with value := v, timestamp := t }, ?_, he2k⟩
        rw [List.getElem?_set_self (by simpa using hjlt)]
      · exact ⟨e2, by rwa [List.getElem?_set_ne (fun hc => hij hc.symm)], he2k⟩

theorem storeMemoryOk_memories (s : AgentState) (k v : String) (t : Nat) (h : MemInv s) :
    (storeMemoryOk s k v t).memories = specStore s.memories k v t := by
  rcases hidx : s.memoryIndex k with _ | j
  · rw [storeMemoryOk_fresh s k v t h hidx,
      specStore_of_not_mem s.memories k v t (not_mem_of_memoryIndex_zero s k h hidx)]
  · obtain ⟨e, hj, hk, heq⟩ := storeMemoryOk_update s k v t j h hidx
    rw [heq]
    have hfirst : ∀ j' e', j' < j → s.memories[j']? = some e' → e'.key ≠ k := by
      intro j' e' hj' hje' hc
      have := h.1 j' e' hje'
      rw [hc, hidx] at this
      omega
    exact (specStore_set s.memories k v t j e hj hk hfirst).symm

theorem memInv_nodupKeys (s : AgentState) (h : MemInv s) :
    (s.memories.map MemEntry.key).Nodup := by
  rw [List.nodup_iff_getElem?_ne_getElem?]
  intro i j hij hj hc
  have hjlt : j < s.memories.length := by simpa using hj
  have hilt : i < s.memories.length := lt_trans hij hjlt
  simp only [List.getElem?_map, List.getElem?_eq_getElem hilt,
    List.getElem?_eq_getElem hjlt, Option.map_some', Option.some.injEq] at hc
  have h1 := h.1 i (s.memories[i]) (List.getElem?_eq_getElem hilt)
  have h2 := h.1 j (s.memories[j]) (List.getElem?_eq_getElem hjlt)
  rw [hc] at h1
  rw [h1] at h2
  omega

theorem memInv_applyStores (s : AgentState) (ops : List (String × String × Nat))
    (h : MemInv s) : MemInv (applyStores s ops) := by
  induction ops generalizing s with
  | nil => exact h
  | cons op rest ih =>
    exact ih (storeMemoryOk s op.1 op.2.1 op.2.2) (memInv_storeMemoryOk s op.1 op.2.1 op.2.2 h)

/-- C1: after any sequence of `storeMemory` calls on a freshly constructed
agent, the memory keys are pairwise distinct (at most one entry per key), and
one further `storeMemory` acts exactly as the dedup-by-key upsert `specStore`:
an existing key's entry gets its value and timestamp updated in place at its
original position, and a new key's entry is appended at the end. -/
theorem storeMemory_dedup_upsert (o f : Nat) (g : String) (t0 : Nat)
    (ops : List (String × String × Nat)) (k v : String) (t : Nat) :
    ((applyStores (mkAgent o f g t0) ops).memories.map MemEntry.key).Nodup ∧
    (storeMemoryOk (applyStores (mkAgent o f g t0) ops) k v t).memories =
      specStore (applyStores (mkAgent o f g t0) ops).memories k v t := by
  have hinv := memInv_applyStores (mkAgent o f g t0) ops (memInv_mkAgent o f g t0)
  exact ⟨memInv_nodupKeys _ hinv, storeMemoryOk_memories _ k v t hinv⟩

theorem findMemory_of_not_mem (mems : List MemEntry) (k : String)
    (h : ∀ e ∈ mems, e.key ≠ k) : findMemory mems k = ("", 0) := by
  induction mems with
  | nil => rfl
  | cons e rest ih =>
    have hk : e.key ≠ k := h e (List.mem_cons_self e rest)
    simp only [findMemory, if_neg hk]
    exact ih (fun e' he' => h e' (List.mem_cons_of_mem e he'))

theorem findMemory_first (mems : List MemEntry) (k : String) (i : Nat) (e : MemEntry)
    (hi : mems[i]? = some e) (hk : e.key = k)
    (hfirst : ∀ j e', j < i → mems[j]? = some e' → e'.key ≠ k) :
    findMemory mems k = (e.value, e.timestamp) := by
  induction mems generalizing i with
  | nil => simp at hi
  | cons a rest ih =>
    cases i with
    | zero =>
      simp only [List.getElem?_cons_zero, Option.some.injEq] at hi
      subst hi
      simp only [findMemory, if_pos hk]
    | succ n =>
      have ha : a.key ≠ k := hfirst 0 a (Nat.succ_pos n) (by simp)
      simp only [List.getElem?_cons_succ] at hi
      simp only [findMemory, if_neg ha]
      exact ih n hi (fun j e' hj hje' =>
        hfirst (j + 1) e' (Nat.succ_lt_succ hj) (by simpa using hje'))

/-- C10: the function `getMemory` is total — on a key with no matching entry it returns
`("", 0)` rather than failing, and on a stored key it returns the value and
timestamp of the first entry whose key matches. -/
theorem getMemory_total (s : AgentState) (k : String) :
    ((∀ e ∈ s.memories, e.key ≠ k) → getMemory s k = ("", 0)) ∧
    (∀ (i : Nat) (e : MemEntry), s.memories[i]? = some e → e.key = k →
      (∀ (j : Nat) (e' : MemEntry), j < i → s.memories[j]? = some e' → e'.key ≠ k) →
      getMemory s k = (e.value, e.timestamp)) := by
  constructor
  · intro h
    exact findMemory_of_not_mem s.memories k h
  · intro i e hi hk hfirst
    exact findMemory_first s.memories k i e hi hk hfirst

/-- Witness for C10 at a concrete agent: a missing key yields `("", 0)` and a
present key yields the first matching entry's value and timestamp. -/
theorem getMemory_total_witness :
    getMemory (applyStores (mkAgent 1 2 "g" 0) [("a", "v1", 5)]) "b" = ("", 0) ∧
    getMemory (applyStores (mkAgent 1 2 "g" 0) [("a", "v1", 5)]) "a" = ("v1", 5) := by
  refine ⟨(getMemory_total (applyStores (mkAgent 1 2 "g" 0) [("a", "v1", 5)]) "b").1 ?_,
    (getMemory_total (applyStores (mkAgent 1 2 "g" 0) [("a", "v1", 5)]) "a").2 0
      ⟨"a", "v1", 5⟩ (by decide) (by decide) ?_⟩
  · intro e he
    simp [applyStores, mkAgent, storeMemoryOk, scanUpdate] at he
    subst he
    decide
  · intro j e' hj
    omega

/-- C3 counterexample: the contract's `updateGoal` performs no emptiness
validation — the owner setting the empty goal (empty before and hence after
any trimming) succeeds instead of failing with `InvalidArgument`. -/
theorem updateGoal_no_trim_check :
    ("" : String).isEmpty = true ∧
    updateGoal (mkAgent 1 2 "goal" 0) 1 "" =
      Except.ok { mkAgent 1 2 "goal" 0 with goal := "" } := by
  constructor
  · decide
  · rfl

/-- C3 (amended): `updateGoal` succeeds exactly when the caller is the owner,
setting the goal verbatim, and fails with `Unauthorized` otherwise; the
contract performs no validation of the new goal's content. -/
theorem updateGoal_owner_only (s : AgentState) (caller : Nat) (newGoal : String) :
    (caller = s.owner → updateGoal s caller newGoal = Except.ok { s with goal := newGoal }) ∧
    (caller ≠ s.owner → updateGoal s caller newGoal = Except.error AgentError.unauthorized) := by
  constructor
  · intro h
    simp [updateGoal, h]
  · intro h
    simp [updateGoal, h]

/-- Witness for C3 (amended): the owner updates the goal; a stranger is
rejected with `Unauthorized`. -/
theorem updateGoal_owner_only_witness :
    updateGoal (mkAgent 1 2 "old" 0) 1 "new" =
      Except.ok { mkAgent 1 2 "old" 0 with goal := "new" } ∧
    updateGoal (mkAgent 1 2 "old" 0) 3 "new" = Except.error AgentError.unauthorized := by
  exact ⟨(updateGoal_owner_only (mkAgent 1 2 "old" 0) 1 "new").1 (by decide),
    (updateGoal_owner_only (mkAgent 1 2 "old" 0) 3 "new").2 (by decide)⟩

/-- C4: a successful `storeResponse` (the spec's `commitResult`) sets
`lastResponse` to the given text, sets `lastExecutionTime` to the current
block timestamp (hence never decreases it, the chain clock being
non-decreasing), increments `executionCount` by exactly one, and leaves the
memory array unchanged. -/
theorem storeResponse_commit (s : AgentState) (caller : Nat) (text : String)
    (blockTimestamp : Nat) (s' : AgentState)
    (h : storeResponse s caller text blockTimestamp = Except.ok s') :
    s'.lastResponse = text ∧
    s'.lastExecutionTime = blockTimestamp ∧
    (s.lastExecutionTime ≤ blockTimestamp → s.lastExecutionTime ≤ s'.lastExecutionTime) ∧
    s'.executionCount = s.executionCount + 1 ∧
    s'.memories = s.memories := by
  unfold storeResponse at h
  split at h
  · cases h
    refine ⟨rfl, rfl, ?_, rfl, rfl⟩
    intro hle
    simpa [storeResponseOk] using hle
  · cases h

/-- Witness for C4 at a concrete call: the owner commits a result and the
fields change exactly as stated. -/
theorem storeResponse_commit_witness :
    storeResponse (mkAgent 1 2 "g" 0) 1 "res" 7 =
      Except.ok (storeResponseOk (mkAgent 1 2 "g" 0) "res" 7) ∧
    (storeResponseOk (mkAgent 1 2 "g" 0) "res" 7).lastResponse = "res" ∧
    (storeResponseOk (mkAgent 1 2 "g" 0) "res" 7).lastExecutionTime = 7 ∧
    (storeResponseOk (mkAgent 1 2 "g" 0) "res" 7).executionCount = 0 + 1 ∧
    (storeResponseOk (mkAgent 1 2 "g" 0) "res" 7).memories = [] := by
  have h : storeResponse (mkAgent 1 2 "g" 0) 1 "res" 7 =
      Except.ok (storeResponseOk (mkAgent 1 2 "g" 0) "res" 7) := by
    simp [storeResponse, mkAgent]
  have := storeResponse_commit (mkAgent 1 2 "g" 0) 1 "res" 7
    (storeResponseOk (mkAgent 1 2 "g" 0) "res" 7) h
  exact ⟨h, this.1, this.2.1, this.2.2.2.1, this.2.2.2.2⟩

/-- Revert reason of `AgentFactory.getAgents`. -/
inductive FactoryError
  | offsetOutOfBounds
deriving Repr, DecidableEq

/-- Function `AgentFactory.getAgents`: `require(offset < agents.length)`, then
`end = offset + limit` clamped to `agents.length`, and the slots
`agents[offset .. end)` are copied out in order. -/
def getAgents (agents : List Nat) (offset limit : Nat) : Except FactoryError (List Nat) :=
  if offset < agents.length then
    let e := if agents.length < offset + limit then agents.length else offset + limit
    Except.ok ((agents.drop offset).take (e - offset))
  else
    Except.error FactoryError.offsetOutOfBounds

/-- C2 counterexample: on an empty registry (`totalCount = 0`) the pagination
request does not return an empty page — the `require(offset < agents.length)`
guard makes it revert with the out-of-bounds error. -/
theorem getAgents_empty_reverts :
    getAgents [] 0 50 = Except.error FactoryError.offsetOutOfBounds := by
  rfl

/-- C2 (amended): the function `getAgents` returns the `min(limit, totalCount - offset)`
ids starting at `offset` whenever `offset < totalCount`, and fails with the
out-of-bounds error exactly when `offset >= totalCount` — including on an
empty registry, where every request (in particular `offset = 0`) reverts
rather than returning an empty page. -/
theorem getAgents_paginates (agents : List Nat) (offset limit : Nat) :
    (offset < agents.length →
      getAgents agents offset limit = Except.ok ((agents.drop offset).take limit) ∧
      ((agents.drop offset).take limit).length = min limit (agents.length - offset)) ∧
    (agents.length ≤ offset →
      getAgents agents offset limit = Except.error FactoryError.offsetOutOfBounds) := by
  constructor
  · intro h
    constructor
    · simp only [getAgents, if_pos h]
      by_cases hc : agents.length < offset + limit
      · have h1 : (agents.drop offset).take (agents.length - offset) = agents.drop offset :=
          List.take_of_length_le (by simp)
        have h2 : (agents.drop offset).take limit = agents.drop offset :=
          List.take_of_length_le (by simp; omega)
        rw [if_pos hc, h1, h2]
      · rw [if_neg hc, Nat.add_sub_cancel_left]
    · rw [List.length_take, List.length_drop]
  · intro h
    simp only [getAgents, if_neg (Nat.not_lt.mpr h)]

/-- Witness for C2 (amended) on a three-agent registry: an in-range request
returns the requested slice, and an out-of-range request reverts. -/
theorem getAgents_paginates_witness :
    getAgents [10, 20, 30] 1 5 = Except.ok [20, 30] ∧
    getAgents [10, 20, 30] 3 5 = Except.error FactoryError.offsetOutOfBounds := by
  refine ⟨?_, (getAgents_paginates [10, 20, 30] 3 5).2 (by decide)⟩
  have h := ((getAgents_paginates [10, 20, 30] 1 5).1 (by decide)).1
  rw [h]
  rfl

/-- Executor rate-limit interval in seconds (`const minInterval = 3600`). -/
def minInterval : Int := 3600

/-- The executor's due check (`executeAgent` in `executor/index.js`): the
agent is skipped iff `timeSinceLastExecution < minInterval && execCount > 0`;
it is due on the fall-through. -/
def dueForExecution (execCount : Nat) (lastExecution currentTime : Int) : Bool :=
  !(decide (currentTime - lastExecution < minInterval) && decide (0 < execCount))

/-- C5: an agent with `executionCount == 0` is always due regardless of
`lastExecutionTime`, and an agent with `executionCount > 0` is due iff at
least `minInterval = 3600` seconds elapsed since `lastExecutionTime`. -/
theorem dueForExecution_policy (execCount : Nat) (lastExecution currentTime : Int) :
    (execCount = 0 → dueForExecution execCount lastExecution currentTime = true) ∧
    (0 < execCount →
      (dueForExecution execCount lastExecution currentTime = true ↔
        minInterval ≤ currentTime - lastExecution)) := by
  constructor
  · intro h
    subst h
    simp [dueForExecution]
  · intro h
    simp only [dueForExecution, minInterval, Bool.not_eq_true', Bool.and_eq_false_iff,
      decide_eq_false_iff_not, not_lt, decide_eq_true_eq]
    constructor
    · rintro (hle | hc)
      · exact hle
      · omega
    · intro hle
      exact Or.inl hle

/-- Witness for C5: a never-executed agent is due even with a recent
timestamp; an executed agent is due at exactly 3600 elapsed seconds and not
due at 1800. -/
theorem dueForExecution_policy_witness :
    dueForExecution 0 999999 1000000 = true ∧
    dueForExecution 3 0 3600 = true ∧
    dueForExecution 3 0 1800 = false := by
  refine ⟨(dueForExecution_policy 0 999999 1000000).1 rfl,
    ((dueForExecution_policy 3 0 3600).2 (by decide)).mpr (by decide), ?_⟩
  have h := (dueForExecution_policy 3 0 1800).2 (by decide)
  cases hb : dueForExecution 3 0 1800
  · rfl
  · exact absurd (h.mp hb) (by decide)

/-- Outcome oracle for the external collaborators while processing one agent
in one tick: the Reasoning Gateway's result (`none` models an Unavailable
failure), and whether the ledger confirms the `storeResponse` and
`storeMemory` transactions. -/
structure Oracle where
  gen : Option String
  commitOk : Bool
  memOk : Bool

/-- One per-agent pass of the executor (`executeAgent` in
`executor/index.js`), returning the resulting on-chain agent state and
whether the Reasoning Gateway was invoked.  Mirrors the source: an inactive
agent returns before any generation call; an agent failing the rate-limit
check returns; otherwise the gateway is called — on failure the per-agent
try/catch swallows the error with no state written; on success
`storeResponse` is submitted (a ledger failure is caught with no state
written) and then a derived `execution_<count>` memory is submitted, keyed by
the pre-commit execution count (a ledger failure here is caught after the
commit has already taken effect). -/
def executeAgent (s : AgentState) (currentTime : Int) (blockTimestamp : Nat)
    (isoNow : String) (o : Oracle) : AgentState × Bool :=
  if s.isActive = false then (s, false)
  else if dueForExecution s.executionCount (s.lastExecutionTime : Int) currentTime = false then
    (s, false)
  else
    match o.gen with
    | none => (s, true)
    | some response =>
      if o.commitOk = false then (s, true)
      else
        let s1 := storeResponseOk s response blockTimestamp
        if o.memOk = false then (s1, true)
        else
          (storeMemoryOk s1 ("execution_" ++ toString s.executionCount)
            (isoNow ++ ": " ++ response.take 200) blockTimestamp, true)

/-- One executor tick over a page of agents (the for-loop of
`executeAgents`); each agent is paired with its own collaborator oracle for
this tick. -/
def executeAgents (agents : List AgentState) (currentTime : Int) (blockTimestamp : Nat)
    (isoNow : String) (oracles : List Oracle) : List AgentState :=
  (agents.zip oracles).map fun p => (executeAgent p.1 currentTime blockTimestamp isoNow p.2).1

/-- C6: an agent whose snapshot has `isActive == false` is never passed to
the Reasoning Gateway: the per-agent pass returns before any generation call,
with no state change and no error. -/
theorem inactive_skipped (s : AgentState) (currentTime : Int) (blockTimestamp : Nat)
    (isoNow : String) (o : Oracle) (h : s.isActive = false) :
    executeAgent s currentTime blockTimestamp isoNow o = (s, false) := by
  simp [executeAgent, h]

/-- Witness for C6: a deactivated agent passes through a tick untouched and
without a gateway call, even with a generation result available. -/
theorem inactive_skipped_witness :
    executeAgent { mkAgent 1 2 "g" 0 with isActive := false } 999999 999999 "T"
      { gen := some "r", commitOk := true, memOk := true } =
      ({ mkAgent 1 2 "g" 0 with isActive := false }, false) :=
  inactive_skipped { mkAgent 1 2 "g" 0 with isActive := false } 999999 999999 "T"
    { gen := some "r", commitOk := true, memOk := true } rfl

theorem storeMemoryOk_executionCount (s : AgentState) (k v : String) (t : Nat) :
    (storeMemoryOk s k v t).executionCount = s.executionCount := by
  by_cases hA : s.memoryIndex k = 0 ∧ 0 < s.memories.length
  · rcases hscan : scanUpdate s.memories k v t with _ | u
    · simp [storeMemoryOk, hA, hscan]
    · simp [storeMemoryOk, hA, hscan]
  · by_cases hB : 0 < s.memoryIndex k
    · simp [storeMemoryOk, hA, hB]
    · simp [storeMemoryOk, hA, hB]

theorem executeAgent_failure_fst (s : AgentState) (currentTime : Int) (blockTimestamp : Nat)
    (isoNow : String) (o : Oracle) (h : o.gen = none ∨ o.commitOk = false) :
    (executeAgent s currentTime blockTimestamp isoNow o).1 = s := by
  by_cases h1 : s.isActive = false
  · simp [executeAgent, h1]
  · by_cases h2 :
      dueForExecution s.executionCount (s.lastExecutionTime : Int) currentTime = false
    · simp [executeAgent, h1, h2]
    · rcases hgen : o.gen with _ | r
      · simp [executeAgent, h1, h2, hgen]
      · rcases h with h | h
        · rw [hgen] at h
          cases h
        · simp [executeAgent, h1, h2, hgen, h]

theorem executeAgent_success_executionCount (s : AgentState) (currentTime : Int)
    (blockTimestamp : Nat) (isoNow : String) (o : Oracle) (r : String)
    (hact : s.isActive = true)
    (hdue : dueForExecution s.executionCount (s.lastExecutionTime : Int) currentTime = true)
    (hgen : o.gen = some r) (hcommit : o.commitOk = true) :
    (executeAgent s currentTime blockTimestamp isoNow o).1.executionCount =
      s.executionCount + 1 := by
  have h1 : ¬ s.isActive = false := by simp [hact]
  have h2 : ¬ dueForExecution s.executionCount (s.lastExecutionTime : Int) currentTime
      = false := by simp [hdue]
  have h3 : ¬ o.commitOk = false := by simp [hcommit]
  by_cases hm : o.memOk = false
  · simp [executeAgent, h1, h2, hgen, h3, hm, storeResponseOk]
  · simp [executeAgent, h1, h2, hgen, h3, hm, storeMemoryOk_executionCount, storeResponseOk]

/-- C7 counterexample: a Ledger Gateway failure on the derived-memory submit
(`memOk = false`) happens while processing the tick's only agent, yet that
agent's state is not left unchanged — the already-committed result stays, so
its `executionCount` grows by one. -/
theorem ledger_memory_failure_changes_state :
    (executeAgents [mkAgent 1 2 "g" 0] 999999 999999 "T"
        [{ gen := some "resp", commitOk := true, memOk := false }]).map
      AgentState.executionCount = [1] ∧
    executeAgents [mkAgent 1 2 "g" 0] 999999 999999 "T"
        [{ gen := some "resp", commitOk := true, memOk := false }] ≠
      [mkAgent 1 2 "g" 0] := by
  refine ⟨rfl, ?_⟩
  intro hc
  have h1 : (executeAgents [mkAgent 1 2 "g" 0] 999999 999999 "T"
      [{ gen := some "resp", commitOk := true, memOk := false }]).map
    AgentState.executionCount = [1] := rfl
  rw [hc] at h1
  simp [mkAgent] at h1

/-- C7 (amended): within a tick every agent is processed, each from its own
snapshot and collaborator oracle, independently of the other agents'
outcomes; a Reasoning Gateway failure, or a Ledger Gateway failure on the
result commit, leaves that agent's state unchanged (a ledger failure on the
later derived-memory submit instead leaves the already-committed result in
place); and an agent whose generation and commit succeed has its
`executionCount` incremented by exactly one.  In particular, agent A's
generation failing never prevents agent B in the same tick from being
processed and committed. -/
theorem tick_failure_isolation (agents : List AgentState) (oracles : List Oracle)
    (currentTime : Int) (blockTimestamp : Nat) (isoNow : String)
    (hlen : oracles.length = agents.length) :
    (executeAgents agents currentTime blockTimestamp isoNow oracles).length = agents.length ∧
    (∀ (i : Nat) (a : AgentState) (o : Oracle),
      agents[i]? = some a → oracles[i]? = some o →
      (executeAgents agents currentTime blockTimestamp isoNow oracles)[i]? =
        some (executeAgent a currentTime blockTimestamp isoNow o).1) ∧
    (∀ (i : Nat) (a : AgentState) (o : Oracle),
      agents[i]? = some a → oracles[i]? = some o →
      (o.gen = none ∨ o.commitOk = false) →
      (executeAgents agents currentTime blockTimestamp isoNow oracles)[i]? = some a) ∧
    (∀ (i : Nat) (a : AgentState) (o : Oracle) (r : String),
      agents[i]? = some a → oracles[i]? = some o →
      a.isActive = true →
      dueForExecution a.executionCount (a.lastExecutionTime : Int) currentTime = true →
      o.gen = some r → o.commitOk = true →
      ∃ a2, (executeAgents agents currentTime blockTimestamp isoNow oracles)[i]? = some a2 ∧
        a2.executionCount = a.executionCount + 1) := by
  have hpt : ∀ (i : Nat) (a : AgentState) (o : Oracle),
      agents[i]? = some a → oracles[i]? = some o →
      (executeAgents agents currentTime blockTimestamp isoNow oracles)[i]? =
        some (executeAgent a currentTime blockTimestamp isoNow o).1 := by
    intro i a o ha ho
    unfold executeAgents
    rw [List.getElem?_map,
      show (agents.zip oracles)[i]? = some (a, o) from
        List.getElem?_zip_eq_some.mpr ⟨ha, ho⟩]
    rfl
  refine ⟨?_, hpt, ?_, ?_⟩
  · simp [executeAgents, hlen]
  · intro i a o ha ho hfail
    rw [hpt i a o ha ho,
      executeAgent_failure_fst a currentTime blockTimestamp isoNow o hfail]
  · intro i a o r ha ho hact hdue hgen hcommit
    exact ⟨_, hpt i a o ha ho,
      executeAgent_success_executionCount a currentTime blockTimestamp isoNow o r
        hact hdue hgen hcommit⟩

/-- Witness for C7 (amended), the spec's scenario: in a two-agent tick where
agent A's generation fails and agent B's succeeds, A comes out unchanged and
B's `executionCount` increments by exactly one. -/
theorem tick_failure_isolation_witness :
    (executeAgents [mkAgent 1 2 "A" 0, mkAgent 3 2 "B" 0] 999999 999999 "T"
        [{ gen := none, commitOk := true, memOk := true },
         { gen := some "ok", commitOk := true, memOk := true }])[0]? =
      some (mkAgent 1 2 "A" 0) ∧
    ((executeAgents [mkAgent 1 2 "A" 0, mkAgent 3 2 "B" 0] 999999 999999 "T"
        [{ gen := none, commitOk := true, memOk := true },
         { gen := some "ok", commitOk := true, memOk := true }])[1]?).map
      AgentState.executionCount = some ((mkAgent 3 2 "B" 0).executionCount + 1) := by
  have h := tick_failure_isolation [mkAgent 1 2 "A" 0, mkAgent 3 2 "B" 0]
    [{ gen := none, commitOk := true, memOk := true },
     { gen := some "ok", commitOk := true, memOk := true }] 999999 999999 "T" rfl
  refine ⟨h.2.2.1 0 (mkAgent 1 2 "A" 0) _ rfl rfl (Or.inl rfl), ?_⟩
  obtain ⟨b2, hb, hcount⟩ := h.2.2.2 1 (mkAgent 3 2 "B" 0)
    { gen := some "ok", commitOk := true, memOk := true } "ok" rfl rfl rfl (by decide) rfl rfl
  rw [hb]
  simp [hcount]

/-- One monitoring sample (the data point passed to `saveMonitoringData`). -/
structure Sample where
  timestamp : Int
  totalAgents : Nat
  activeAgents : Nat
  totalExecutions : Nat
  recentExecutions : Nat
deriving Repr, DecidableEq

/-- Function `saveMonitoringData` in `monitor/index.js`: push the new data point onto
the loaded history, then keep only the last 1000 entries. -/
def saveMonitoringData (historicalData : List Sample) (d : Sample) : List Sample :=
  let h := historicalData ++ [d]
  if 1000 < h.length then h.drop (h.length - 1000) else h

/-- The persisted monitor history after a sequence of samples, starting from
an absent data file (empty history). -/
def monitorHistory (samples : List Sample) : List Sample :=
  samples.foldl saveMonitoringData []

theorem saveMonitoringData_drop (xs : List Sample) (x : Sample) :
    saveMonitoringData (xs.drop (xs.length - 1000)) x =
      (xs ++ [x]).drop ((xs ++ [x]).length - 1000) := by
  have hle : xs.length - 1000 ≤ xs.length := Nat.sub_le _ _
  have hsplit : xs.drop (xs.length - 1000) ++ [x] = (xs ++ [x]).drop (xs.length - 1000) :=
    (List.drop_append_of_le_length hle).symm
  have hlen : (xs.drop (xs.length - 1000) ++ [x]).length =
      xs.length - (xs.length - 1000) + 1 := by simp
  simp only [saveMonitoringData]
  split_ifs with hcond
  · have hge : 1000 ≤ xs.length := by
      rw [hlen] at hcond
      omega
    rw [hlen]
    have h1 : xs.length - (xs.length - 1000) + 1 - 1000 = 1 := by omega
    rw [h1, hsplit, List.drop_drop]
    have h2 : (xs ++ [x]).length - 1000 = xs.length - 1000 + 1 := by
      simp
      omega
    rw [h2]
  · have hlt : xs.length < 1000 := by
      rw [hlen] at hcond
      omega
    have h0 : xs.length - 1000 = 0 := by omega
    have h0' : (xs ++ [x]).length - 1000 = 0 := by
      simp
      omega
    rw [h0, h0', List.drop_zero, List.drop_zero]

/-- C8: the persisted monitor history is a bounded FIFO — after any sequence
of sample appends it holds at most 1000 entries, and it is exactly the suffix
of the most recent samples in append order (oldest dropped first). -/
theorem monitorHistory_fifo (samples : List Sample) :
    monitorHistory samples = samples.drop (samples.length - 1000) ∧
    (monitorHistory samples).length ≤ 1000 := by
  have hmain : monitorHistory samples = samples.drop (samples.length - 1000) := by
    induction samples using List.reverseRecOn with
    | nil => rfl
    | append_singleton xs x ih =>
      have hstep : monitorHistory (xs ++ [x]) = saveMonitoringData (monitorHistory xs) x := by
        simp [monitorHistory, List.foldl_append]
      rw [hstep, ih, saveMonitoringData_drop]
  refine ⟨hmain, ?_⟩
  rw [hmain, List.length_drop]
  omega

/-- The monitor's recent-execution aggregate over one scan (`scanAgents`):
the number of agents whose `lastExecution` lies strictly within the last
hour of the scan's current time. -/
def scanRecentExecutions (agents : List AgentState) (currentTime : Int) : Nat :=
  agents.countP fun a => decide (currentTime - 3600 < (a.lastExecutionTime : Int))

/-- C9: a freshly constructed agent has `executionCount = 0`, `isActive`
true, and `lastExecutionTime` equal to its creation block timestamp rather
than zero; consequently, scanned within an hour of creation it is counted by
the monitor's `recentExecutions` aggregate despite never having executed. -/
theorem fresh_agent_counts_recent (o f : Nat) (g : String) (createdAt : Nat)
    (currentTime : Int) :
    (mkAgent o f g createdAt).executionCount = 0 ∧
    (mkAgent o f g createdAt).isActive = true ∧
    (mkAgent o f g createdAt).lastExecutionTime = createdAt ∧
    (currentTime - 3600 < (createdAt : Int) →
      scanRecentExecutions [mkAgent o f g createdAt] currentTime = 1) := by
  refine ⟨rfl, rfl, rfl, ?_⟩
  intro h
  unfold scanRecentExecutions
  rw [List.countP_cons]
  simp [mkAgent, h]

/-- Witness for C9: an agent created at time 100 and scanned at time 200 is
counted as a recent execution with `executionCount` still zero. -/
theorem fresh_agent_counts_recent_witness :
    (mkAgent 1 2 "g" 100).executionCount = 0 ∧
    (mkAgent 1 2 "g" 100).isActive = true ∧
    (mkAgent 1 2 "g" 100).lastExecutionTime = 100 ∧
    scanRecentExecutions [mkAgent 1 2 "g" 100] 200 = 1 := by
  have h := fresh_agent_counts_recent 1 2 "g" 100 200
  exact ⟨h.1, h.2.1, h.2.2.1, h.2.2.2 (by decide)⟩

end AgentX
